import Mathlib

/-!
Shallow embedding of the sb-agent research-pipeline core, translated from the
Python source (src/worker/tasks.py, src/api/main.py, src/db/vector.py,
src/tools/tavily_tool.py), together with theorems settling the frozen claims
about it.  External effects (LLM agents, JSON parsing, the redis cache, the
embedding provider) are passed in as explicit parameters or outcome values so
that every handler becomes a pure function on an explicit state.

The file is organised as definitions first, theorems second.
-/

/-! ## Definitions -/

/-- Job statuses stored in `research_reports.status`
(src/db/models.py, src/worker/tasks.py). -/
inductive JobStatus
  | pending
  | processing
  | generating
  | completed
  | failed
deriving DecidableEq, Repr

/-- Task statuses of the supervisor state machine in `supervisor_loop`
(src/worker/tasks.py). -/
inductive TaskStatus
  | PENDING
  | HYPOTHESIZING_STARTED
  | HYPOTHESIZED
  | RESEARCHING_STARTED
  | RESEARCHED
  | SCORING_STARTED
  | SCORED
  | CONTRADICTING_STARTED
  | CONTRADICTED
  | REVIEW_STARTED
  | APPROVED
  | REJECTED
  | RESEARCHING_RETRY
deriving DecidableEq, Repr

/-- Bit length (number of binary digits) of a natural number, structural on a
fuel argument; `bitLen n n` is correct for every `n`. -/
def bitLen : Nat → Nat → Nat
  | 0, _ => 0
  | fuel+1, n => if n = 0 then 0 else bitLen fuel (n / 2) + 1

/-- Rounding of the fraction n/d (with 0 < d) to the nearest integer, ties to
even - the rounding step of IEEE-754 round-to-nearest-even. -/
def halfEvenDiv (n d : ℕ) : ℕ :=
  let q := n / d
  let r := n % d
  if 2 * r < d then q
  else if d < 2 * r then q + 1
  else if q % 2 = 0 then q else q + 1

/-- The IEEE binary64 (Python float) value nearest to the fraction a/b, as a
dyadic pair (mantissa, exponent) of value mantissa · 2^(exponent − 52); zero
when a = 0.  Overflow and subnormals are ignored - they are unreachable for
the progress projector's inputs. -/
def floatOfRat (a b : ℕ) : ℕ × ℤ :=
  if a = 0 ∨ b = 0 then (0, 0)
  else
    let la := bitLen a a
    let lb := bitLen b b
    let e : ℤ := if b * 2 ^ la ≤ a * 2 ^ lb then (la : ℤ) - lb else (la : ℤ) - lb - 1
    let m :=
      if 0 ≤ 52 - e then halfEvenDiv (a * 2 ^ (52 - e).toNat) b
      else halfEvenDiv a (b * 2 ^ (e - 52).toNat)
    (m, e)

/-- Multiplication of a binary64 value by a small natural number, rounding the
product mantissa back to 53 bits (correctly rounded, as CPython's float
multiplication by an exactly-representable int). -/
def floatMulNat (f : ℕ × ℤ) (k : ℕ) : ℕ × ℤ :=
  let p := f.1 * k
  let l := bitLen p p
  if l ≤ 53 then (p, f.2)
  else (halfEvenDiv p (2 ^ (l - 53)), f.2 + (l - 53))

/-- Python `int()` (truncation, here on nonnegative values) of the binary64
value mantissa · 2^(exponent − 52). -/
def floatToNatFloor (f : ℕ × ℤ) : ℕ :=
  if 0 ≤ f.2 - 52 then f.1 * 2 ^ (f.2 - 52).toNat
  else f.1 / 2 ^ (52 - f.2).toNat

/-- Python `int((completed / total) * 70)` from src/api/main.py lines 69-73,
computed in IEEE binary64 arithmetic: correctly-rounded division, then
correctly-rounded multiplication by 70, then truncation.  This deviates from
the exact floor `completed * 70 / total`: first at completed = 47,
total = 70, where the float product is 46.99999999999999 and truncates to 46
instead of 47. -/
def float_task_progress (completed total : ℕ) : ℕ :=
  floatToNatFloor (floatMulNat (floatOfRat completed total) 70)

/-- Function `calculate_progress` from src/api/main.py (lines 49-80): derives
`(progress_percent, current_phase)` from the job status and the statuses of
the job's tasks.  The task-progress term models the source's float expression
`int((completed/total)*70)` exactly, via `float_task_progress`. -/
def calculate_progress (main_status : JobStatus) (tasks : List TaskStatus) :
    Nat × String :=
  if main_status = .completed then (100, "reporting")
  else if main_status = .failed then (0, "failed")
  else if main_status = .pending then (0, "enriching")
  else if tasks.isEmpty then (10, "planning")
  else
    let total := tasks.length
    let completed := (tasks.filter fun t => t = .APPROVED || t = .REJECTED).length
    let task_progress := if 0 < total then float_task_progress completed total else 0
    let current_progress := 20 + task_progress
    if completed = total ∧ 0 < total then (min 90 99, "reporting")
    else (min current_progress 99, "researching")

/-- The count of tasks the progress projector treats as completed:
those with status APPROVED or REJECTED. -/
def settledCount (tasks : List TaskStatus) : Nat :=
  (tasks.filter fun t => t = .APPROVED || t = .REJECTED).length

/-- A task row as read and written by `supervisor_loop` (src/worker/tasks.py):
only the fields the supervisor touches are carried. -/
structure TaskRec where
  id : Nat
  status : TaskStatus
deriving DecidableEq, Repr

/-- A handler enqueue performed by the supervisor via Celery `.delay`
(src/worker/tasks.py, `supervisor_loop`). -/
inductive Enqueue
  | generate_hypotheses (task_id : Nat)
  | perform_research (task_id : Nat)
  | score_evidence (task_id : Nat)
  | find_contradictions (task_id : Nat)
  | review (task_id : Nat)
  | aggregate
deriving DecidableEq, Repr

/-- One iteration of the supervisor's per-task state machine
(src/worker/tasks.py lines 471-514): the entry transition applied to the task
row together with the handler enqueued for it, if any.  Statuses not matching
any branch (the *_STARTED sentinels, RESEARCHING_RETRY, APPROVED) are left
untouched with nothing enqueued. -/
def supervisorStep (t : TaskRec) : TaskRec × Option Enqueue :=
  match t.status with
  | .PENDING => ({ t with status := .HYPOTHESIZING_STARTED }, some (.generate_hypotheses t.id))
  | .HYPOTHESIZED => ({ t with status := .RESEARCHING_STARTED }, some (.perform_research t.id))
  | .RESEARCHED => ({ t with status := .SCORING_STARTED }, some (.score_evidence t.id))
  | .SCORED => ({ t with status := .CONTRADICTING_STARTED }, some (.find_contradictions t.id))
  | .CONTRADICTED => ({ t with status := .REVIEW_STARTED }, some (.review t.id))
  | .REJECTED => ({ t with status := .RESEARCHING_RETRY }, some (.perform_research t.id))
  | _ => (t, none)

/-- The task rows after one pass of the supervisor's per-task loop. -/
def stepTasks (tasks : List TaskRec) : List TaskRec :=
  tasks.map fun t => (supervisorStep t).1

/-- The handler enqueues emitted by one pass of the supervisor's per-task
loop, in task order. -/
def stepEnqs (tasks : List TaskRec) : List Enqueue :=
  tasks.filterMap fun t => (supervisorStep t).2

/-- The `all_approved` flag of `supervisor_loop`: it starts true and is set to
false in every branch except the one for APPROVED tasks, so it ends up true
exactly when every task is APPROVED. -/
def allApproved (tasks : List TaskRec) : Bool :=
  tasks.all fun t => t.status = .APPROVED

/-- Handler `supervisor_loop` from src/worker/tasks.py (lines 463-526), restricted to a
single job: advances every task by its entry transition, enqueues the matching
handlers, and - when every task is APPROVED and at least one task exists -
moves the job status to `generating` and enqueues `aggregate_report`, unless
the job is already `completed` or `generating`. -/
def supervisor_loop (tasks : List TaskRec) (jobStatus : JobStatus) :
    List TaskRec × JobStatus × List Enqueue :=
  if allApproved tasks = true ∧ tasks ≠ [] then
    if jobStatus ≠ .completed ∧ jobStatus ≠ .generating then
      (stepTasks tasks, .generating, stepEnqs tasks ++ [.aggregate])
    else (stepTasks tasks, jobStatus, stepEnqs tasks)
  else (stepTasks tasks, jobStatus, stepEnqs tasks)

/-- Python text is embedded as its list of code points, so that `len`,
slicing, `split` and `strip` are structural and computable.  `"…".toList`
injects Lean string literals. -/
abbrev PyStr := List Char

/-- Python `s.split(sep)` for the two-character separator `"\n\n"`
(src/db/vector.py line 64): scan left to right, cutting at each
non-overlapping occurrence of a blank line. -/
def splitParas : List Char → List Char → List (List Char)
  | [], acc => [acc.reverse]
  | '\n' :: '\n' :: rest, acc => acc.reverse :: splitParas rest []
  | c :: rest, acc => splitParas rest (c :: acc)

/-- Python `s.strip()`: drop whitespace from both ends. -/
def pyStrip (s : PyStr) : PyStr :=
  ((s.dropWhile Char.isWhitespace).reverse.dropWhile Char.isWhitespace).reverse

/-- The `details` value of a draft report, as consumed by `save_chunks`
(src/db/vector.py lines 45-58): a JSON object of section name to content,
a JSON list, or anything else (stringified). -/
inductive DetailsVal
  | dict (sections : List (PyStr × PyStr))
  | list (items : List PyStr)
  | other (s : PyStr)
deriving DecidableEq, Repr

/-- A draft report as passed between `aggregate_report`, `final_critique_task`
and `save_chunks`: either a JSON object (with `summary` and `details`, absent
keys defaulting to empty as in `report_data.get("summary", "")`) or a
non-object value handled through `str(report_data)`. -/
inductive ReportData
  | dict (summary : PyStr) (details : DetailsVal)
  | str (s : PyStr)
deriving DecidableEq, Repr

/-- Step 1 of `save_chunks` (src/db/vector.py lines 43-60): flatten the
report into one text block. -/
def flatten_report : ReportData → PyStr
  | .dict summary details =>
    let base := "Summary:\n".toList ++ summary ++ "\n\n".toList
    match details with
    | .dict sections =>
        base ++ (sections.map fun kv =>
          "Section: ".toList ++ kv.1 ++ "\n".toList ++ kv.2 ++ "\n\n".toList).flatten
    | .list items => base ++ (items.map fun item => item ++ "\n\n".toList).flatten
    | .other s => base ++ s
  | .str s => s

/-- Step 2 of `save_chunks` (src/db/vector.py line 64): split the flattened
text on blank-line boundaries, strip each piece, drop empty pieces. -/
def raw_chunks (text_content : PyStr) : List PyStr :=
  ((splitParas text_content []).map pyStrip).filter fun c => c ≠ []

/-- A row of the `research_chunks` table (src/db/models.py). -/
structure ChunkRow where
  job_id : String
  content : PyStr
  embedding : List ℚ
deriving DecidableEq, Repr

/-- Function `save_chunks` from src/db/vector.py (lines 35-88).  The embedding provider
is a parameter; `embed s = none` models `llm_provider.get_embedding` raising,
which the loop logs and skips.  The returned list is the batch committed in
one transaction at the end. -/
def save_chunks (job_id : String) (report_data : ReportData)
    (embed : PyStr → Option (List ℚ)) : List ChunkRow :=
  (raw_chunks (flatten_report report_data)).foldl
    (fun chunks chunk_text =>
      if chunk_text.length < 50 then chunks
      else
        match embed chunk_text with
        | some e => chunks ++ [⟨job_id, chunk_text, e⟩]
        | none => chunks)
    []

/-- The parsed final critique, as read through `critique.get("approved", False)`
and its feedback text (src/worker/tasks.py `final_critique_task`). -/
structure CritiqueVal where
  approved : Bool
  feedback : PyStr
deriving DecidableEq, Repr

/-- The outcome of running an agent inside a handler: either the text it
returned, or an uncaught exception. -/
inductive AgentOutcome
  | ok (text : PyStr)
  | raise
deriving DecidableEq, Repr

/-- A `research_reports` row as written by the worker handlers, with exactly
the columns that src/db/models.py declares (id, idea and the timestamps are
omitted as no claim reads them).  Note the table has NO `final_critique`
column: `ResearchReport` maps only id, idea, description, status, report and
the timestamps, so an assignment to `report_obj.final_critique` is an
unmapped Python attribute that SQLAlchemy silently drops at commit. -/
structure Job where
  status : JobStatus
  description : Option PyStr
  report : Option ReportData
deriving DecidableEq, Repr

/-- Handler `final_critique_task` from src/worker/tasks.py (lines 290-353).  `parse`
models `json.loads ∘ clean_json_string` on the critic's text (`none` = parse
error, which the handler treats as approval with the text as feedback);
`agent = .raise` models an uncaught exception in the handler body, whose
`except` branch re-reads the job and saves the draft with status completed.
The assignments `report_obj.final_critique = critique` at lines 322 and 339
target a column that `research_reports` does not have (src/db/models.py), so
the ORM drops them at commit and they do not appear in the persisted row
modelled here; the parsed critique still decides whether `save_chunks` runs
(the approved branch only).  The second component is the chunk batch written
by `save_chunks` (failures in that call are swallowed). -/
def final_critique_task (job : Job) (job_id : String) (draft_report : ReportData)
    (agent : AgentOutcome) (parse : PyStr → Option CritiqueVal)
    (embed : PyStr → Option (List ℚ)) : Job × List ChunkRow :=
  match agent with
  | .ok critique_text =>
    let critique :=
      match parse critique_text with
      | some c => c
      | none => { approved := true, feedback := critique_text }
    if critique.approved = true then
      ({ job with report := some draft_report, status := .completed },
        save_chunks job_id draft_report embed)
    else
      ({ job with report := some draft_report, status := .completed }, [])
  | .raise =>
      ({ job with report := some draft_report, status := .completed }, [])

/-- Handler `enrich_idea` from src/worker/tasks.py (lines 28-60): on agent success the
job gets the enriched description and status `processing` and the enriched
text is returned; on any exception the handler logs, leaves the job untouched
and returns the original idea.  The returned string is what the Celery chain
feeds to `plan_research` as its `description` argument
(`start_research_chain`, lines 528-533). -/
def enrich_idea (idea : PyStr) (job : Job) (agent : AgentOutcome) : Job × PyStr :=
  match agent with
  | .ok enriched_description =>
      ({ job with description := some enriched_description, status := .processing },
        enriched_description)
  | .raise => (job, idea)

/-- Function `clean_json_string` from src/worker/tasks.py (lines 16-26): strip, remove
a leading markdown fence (7 characters for a json-tagged fence, else 3), remove
a trailing fence, strip again.  Python `s[7:]`, `s[3:]` and `s[:-3]` are
`drop`/`take`. -/
def clean_json_string (s : PyStr) : PyStr :=
  let s1 := pyStrip s
  let s2 :=
    if "```json".toList.isPrefixOf s1 then s1.drop 7
    else if "```".toList.isPrefixOf s1 then s1.drop 3
    else s1
  let s3 := if "```".toList.isSuffixOf s2 then s2.take (s2.length - 3) else s2
  pyStrip s3

/-- The shapes of `json.loads` output that `plan_research` distinguishes
(src/worker/tasks.py lines 78-80): a JSON array (whose elements become task
titles) or any other JSON value (`not isinstance(tasks, list)`). -/
inductive PlanJson
  | arr (items : List PyStr)
  | notList
deriving DecidableEq, Repr

/-- A `research_tasks` row as inserted by `plan_research`. -/
structure PlanTaskRow where
  title : PyStr
  status : TaskStatus
deriving DecidableEq, Repr

/-- Handler `plan_research` from src/worker/tasks.py (lines 62-105).  `parse` models
`json.loads` applied to the cleaned planner text (`none` = parse exception);
on a JSON array one PENDING task is created per element, on any other JSON
value or a parse failure a single PENDING task titled with the full
description is created; both paths then call `supervisor_loop.delay` (the
returned Bool).  If the planner agent itself raises, the outer handler logs
and writes nothing. -/
def plan_research (description : PyStr) (agent : AgentOutcome)
    (parse : PyStr → Option PlanJson) : List PlanTaskRow × Bool :=
  match agent with
  | .raise => ([], false)
  | .ok tasks_text =>
    match parse (clean_json_string tasks_text) with
    | some (.arr ts) => (ts.map fun t => ⟨t, .PENDING⟩, true)
    | some .notList => ([⟨description, .PENDING⟩], true)
    | none => ([⟨description, .PENDING⟩], true)

/-- Python `s.split('\\n')` (single-character separator), used for the LLM's
sub-query lines in `_run_deep_search` (src/tools/tavily_tool.py line 61). -/
def splitLines : List Char → List Char → List (List Char)
  | [], acc => [acc.reverse]
  | '\n' :: rest, acc => acc.reverse :: splitLines rest []
  | c :: rest, acc => splitLines rest (c :: acc)

/-- A raw result dict from the Tavily client (src/tools/tavily_tool.py).
`title`, `content`, `raw_content` and `score` are read with `r.get(...)` and
may be absent; `url` is read with `r["url"]` during deduplication, so it is
total here. -/
structure RawResult where
  title : Option String
  url : String
  content : Option PyStr
  raw_content : Option PyStr
  score : Option ℚ
deriving DecidableEq, Repr

/-- One entry of the `results` list built by `_format_output`. -/
structure FormattedResult where
  title : Option String
  url : String
  content : Option PyStr
  score : Option ℚ
deriving DecidableEq, Repr

/-- The dictionary returned by `_format_output` (tavily_tool.py lines 125-128). -/
structure SearchOutput where
  answer : String
  results : List FormattedResult
deriving DecidableEq, Repr

/-- The line `content = r.get("raw_content") if r.get("raw_content") else r.get("content")`
(tavily_tool.py line 113), with Python truthiness: a present-but-empty
raw_content falls back to content. -/
def effective_content (r : RawResult) : Option PyStr :=
  match r.raw_content with
  | some s => if s = [] then r.content else some s
  | none => r.content

/-- The truncation step of `_format_output` (lines 114-116): content is
replaced by its first 5000 characters plus the literal "...(truncated)"
exactly when it is truthy and longer than 5000 characters (`len > 5000`
already implies truthiness). -/
def truncate_content (c : Option PyStr) : Option PyStr :=
  match c with
  | some s =>
      if 5000 < s.length then some (s.take 5000 ++ "...(truncated)".toList) else some s
  | none => none

/-- Function `_format_output` from src/tools/tavily_tool.py (lines 109-128). -/
def format_output (answer : String) (results : List RawResult) : SearchOutput :=
  ⟨answer, results.map fun r => ⟨r.title, r.url, truncate_content (effective_content r), r.score⟩⟩

/-- A response of `client.search` as read by `_run_deep_search`: an optional
truthy `answer` and an optional `results` list (`"results" in resp`). -/
structure SearchResponse where
  answer : Option String
  results : Option (List RawResult)

/-- The query list of `_run_deep_search` (tavily_tool.py lines 50-69): the
LLM content split into stripped non-empty lines, falling back to the single
original query when the LLM call raises or yields no usable line; the
original query is prepended when absent from the list. -/
def deep_queries (query : PyStr) (llm : Option PyStr) : List PyStr :=
  let queries :=
    match llm with
    | none => [query]
    | some content =>
      let qs := ((splitLines content []).map pyStrip).filter fun q => q ≠ []
      if qs = [] then [query] else qs
  if query ∈ queries then queries else query :: queries

/-- The URL deduplication of `_run_deep_search` (lines 95-101): keep the first
result for each URL, tracking seen URLs. -/
def dedupe_by_url (rs : List RawResult) : List RawResult :=
  (rs.foldl (fun acc r =>
    if r.url ∈ acc.2 then acc else (acc.1 ++ [r], acc.2 ++ [r.url])) ([], [])).1

/-- Function `_run_deep_search` from src/tools/tavily_tool.py (lines 48-106).  `llm` is
the sub-query generation outcome (`none` = the LLM call raised), `searchFn`
the per-query Tavily call (`none` = exception, skipped).  The first answer
that is truthy is kept.  Returns the formatted output together with the list
of queries actually executed (`queries[:4]`). -/
def run_deep_search (query : PyStr) (max_results : Nat) (llm : Option PyStr)
    (searchFn : PyStr → Option SearchResponse) : SearchOutput × List PyStr :=
  let queries := deep_queries query llm
  let executed := queries.take 4
  let gather := executed.foldl (fun (st : List RawResult × String) q =>
      match searchFn q with
      | none => st
      | some resp =>
        let st1 :=
          match resp.answer with
          | some a => if a ≠ "" ∧ st.2 = "" then (st.1, a) else st
          | none => st
        match resp.results with
        | some rs => (st1.1 ++ rs, st1.2)
        | none => st1) ([], "")
  let unique := dedupe_by_url gather.1
  let final := unique.take (max_results * 2)
  (format_output gather.2 final, executed)

/-- A cache entry of the redis idempotency store: key, value and absolute
expiry time in seconds (`redis_client.setex key 86400 job_id`). -/
structure CacheEntry where
  key : String
  value : String
  expires_at : ℤ
deriving DecidableEq, Repr

/-- The idempotency cache backed by redis.  `failing_get`/`failing_set` model
the backing store raising on `get`/`setex` (connection errors and the like). -/
structure CacheState where
  entries : List CacheEntry
  failing_get : Bool
  failing_set : Bool
deriving DecidableEq, Repr

/-- The result of a redis call: a value, or an exception. -/
inductive CacheResult (α : Type)
  | ok (v : α)
  | err
deriving DecidableEq, Repr

/-- Call `redis_client.get k` at time `now`: the most recently stored unexpired
entry for the key, if any. -/
def cacheGet (c : CacheState) (now : ℤ) (k : String) : CacheResult (Option String) :=
  if c.failing_get = true then .err
  else .ok ((c.entries.find? fun e => e.key = k ∧ now < e.expires_at).map fun e => e.value)

/-- Call `redis_client.setex k ttl v` at time `now`. -/
def cacheSetex (c : CacheState) (now : ℤ) (k v : String) (ttl : ℤ) : CacheResult CacheState :=
  if c.failing_set = true then .err
  else .ok { c with entries := ⟨k, v, now + ttl⟩ :: c.entries }

/-- A `research_reports` row as created by the API. -/
structure JobRow where
  id : String
  idea : String
  status : JobStatus
deriving DecidableEq, Repr

/-- The state visible to `create_research`: the jobs table, the tasks table
(job id and status of each task, as read by `calculate_progress`), the cache,
and the queue of `start_research_chain.delay(idea, job_id)` enqueues. -/
structure ApiState where
  jobs : List JobRow
  tasks : List (String × TaskStatus)
  cache : CacheState
  chainQueue : List (String × String)
deriving DecidableEq, Repr

/-- The fields of the `ResearchJobStatus` response body that the idempotency
claims inspect. -/
structure JobStatusResp where
  job_id : String
  status : JobStatus
  progress_percent : Nat
  current_phase : String
deriving DecidableEq, Repr

/-- Function `get_research_status_logic` from src/api/main.py (lines 151-165): look the
job up (`none` = HTTPException 404), otherwise project its progress. -/
def get_research_status_logic (st : ApiState) (job_id : String) :
    Option JobStatusResp :=
  match st.jobs.find? fun j => j.id = job_id with
  | none => none
  | some j =>
    let p := calculate_progress j.status
      ((st.tasks.filter fun t => t.1 = job_id).map fun t => t.2)
    some ⟨j.id, j.status, p.1, p.2⟩

/-- The outcome of one `POST /research` request: a response, a 404 from the
hit path, or an uncaught exception surfacing as a 5xx. -/
inductive ApiResult
  | ok (resp : JobStatusResp)
  | http404
  | error
deriving DecidableEq, Repr

/-- The job-creation tail of `create_research` (src/api/main.py lines
128-149): commit the new pending job, then store the idempotency key when one
was sent (`setex` is not guarded, so its failure propagates after the job row
was committed and the chain is never enqueued), then enqueue the worker chain
and answer with the fresh pending status. -/
def create_research_new (st : ApiState) (now : ℤ) (new_id : String) (idea : String)
    (idempotency_key : Option String) : ApiResult × ApiState :=
  let st1 := { st with jobs := st.jobs ++ [⟨new_id, idea, .pending⟩] }
  match idempotency_key with
  | some k =>
    match cacheSetex st1.cache now ("idempotency:" ++ k) new_id 86400 with
    | .err => (.error, st1)
    | .ok c1 =>
      (.ok ⟨new_id, .pending, 0, "queued"⟩,
        { st1 with cache := c1, chainQueue := st1.chainQueue ++ [(idea, new_id)] })
  | none =>
    (.ok ⟨new_id, .pending, 0, "queued"⟩,
      { st1 with chainQueue := st1.chainQueue ++ [(idea, new_id)] })

/-- Endpoint handler `create_research` from src/api/main.py (lines 114-149) at time `now`, with
`new_id` the UUID that `uuid.uuid4()` mints.  The redis `get` is not wrapped
in try/except in the source, so a cache failure propagates and the request
errors; on a hit the current status of the cached job is returned and nothing
is created. -/
def create_research (st : ApiState) (now : ℤ) (new_id : String) (idea : String)
    (idempotency_key : Option String) : ApiResult × ApiState :=
  match idempotency_key with
  | some k =>
    match cacheGet st.cache now ("idempotency:" ++ k) with
    | .err => (.error, st)
    | .ok (some cached_job_id) =>
      match get_research_status_logic st cached_job_id with
      | none => (.http404, st)
      | some resp => (.ok resp, st)
    | .ok none => create_research_new st now new_id idea (some k)
  | none => create_research_new st now new_id idea none

/-- A `research_chunks` row as read by `search_similar_chunks`
(src/db/vector.py): content, stored embedding (rational coordinates standing
for the stored floats) and creation time (in days, matching
`timedelta(days=max_age_days)` arithmetic with a rational clock). -/
structure Chunk where
  content : PyStr
  embedding : List ℚ
  created_at : ℚ
deriving DecidableEq, Repr

/-- Dot product of rational vectors. -/
def dotList (a b : List ℚ) : ℚ := (List.zipWith (fun x y => x * y) a b).sum

/-- pgvector's cosine distance `embedding <=> query_embedding`:
`1 − (a·b)/(‖a‖‖b‖)` (spec glossary). -/
noncomputable def cosineDistance (a b : List ℚ) : ℝ :=
  1 - ((dotList a b : ℚ) : ℝ) /
    (Real.sqrt ((dotList a a : ℚ) : ℝ) * Real.sqrt ((dotList b b : ℚ) : ℝ))

/-- Executable comparator deciding `cosineDistance q a ≤ cosineDistance q b`
for vectors of positive self-dot-product, by sign analysis and squaring (no
square roots needed; see `cosLe_iff_dist`).  Zero-norm vectors, for which
cosine distance is undefined, are ordered first by convention - the claims
about the search only speak about inputs without them. -/
def cosLe (q a b : List ℚ) : Bool :=
  let x := dotList q a
  let y := dotList q b
  let sa := dotList a a
  let sb := dotList b b
  if sa = 0 then true
  else if sb = 0 then false
  else if 0 ≤ x then
    if y < 0 then true else y * y * sa ≤ x * x * sb
  else
    if 0 ≤ y then false else x * x * sb ≤ y * y * sa

/-- Function `search_similar_chunks` from src/db/vector.py (lines 8-33): when
`max_age_days` is given, keep only chunks with
`created_at >= now - max_age_days` (`cutoff_date = utcnow() - timedelta(days=max_age_days)`),
order by cosine distance to the query embedding ascending, return the first
`limit` rows. -/
def search_similar_chunks (chunks : List Chunk) (query_embedding : List ℚ)
    (limit : Nat) (max_age_days : Option ℚ) (now : ℚ) : List Chunk :=
  let filtered :=
    match max_age_days with
    | some d => chunks.filter fun (c : Chunk) => now - d ≤ c.created_at
    | none => chunks
  (filtered.mergeSort fun a b => cosLe query_embedding a.embedding b.embedding).take limit

/-! ## Theorems -/

lemma settledCount_le_length (tasks : List TaskStatus) :
    settledCount tasks ≤ tasks.length :=
  List.length_filter_le _ _

lemma calculate_progress_processing_branch (s : JobStatus) (ts : List TaskStatus)
    (hs₁ : s ≠ .completed) (hs₂ : s ≠ .failed) (hs₃ : s ≠ .pending)
    (hts : ts ≠ []) :
    calculate_progress s ts =
      if settledCount ts = ts.length then (90, "reporting")
      else (min (20 + float_task_progress (settledCount ts) ts.length) 99,
        "researching") := by
  have hpos : 0 < ts.length := List.length_pos.mpr hts
  simp only [calculate_progress, settledCount]
  rw [if_neg hs₁, if_neg hs₂, if_neg hs₃, if_neg (by simpa using hts), if_pos hpos]
  split_ifs with h₁ h₂ h₂
  · norm_num
  · exact absurd h₁.1 h₂
  · exact absurd ⟨h₂, hpos⟩ h₁
  · rfl

lemma calculate_progress_fst_le_99 (s : JobStatus) (ts : List TaskStatus)
    (hs : s ≠ .completed) : (calculate_progress s ts).1 ≤ 99 := by
  simp only [calculate_progress]
  rw [if_neg hs]
  split_ifs <;> simp [min_le_right]

lemma calculate_progress_fst_pos (s : JobStatus) (ts : List TaskStatus)
    (hs₂ : s ≠ .failed) (hs₃ : s ≠ .pending) : 0 < (calculate_progress s ts).1 := by
  simp only [calculate_progress]
  rw [if_neg hs₂, if_neg hs₃]
  split_ifs
  · norm_num
  · norm_num
  · norm_num
  all_goals exact lt_min (Nat.add_pos_left (by norm_num) _) (by norm_num)

/-- C6 counterexample: with 47 settled tasks out of 70, the claimed formula
gives 20 + ⌊(47/70)·70⌋ = 67, but the code's float expression
`int((47/70)*70)` evaluates `(47/70)*70` to 46.99999999999999 and truncates
to 46, so the projector returns progress 66. -/
theorem C6_counterexample :
    calculate_progress .processing
        (List.replicate 47 TaskStatus.APPROVED ++ List.replicate 23 TaskStatus.PENDING)
      = (66, "researching") ∧
    20 + 47 * 70 / 70 = 67 := by
  constructor
  · decide
  · rfl

/-- C6 (amended): the progress projector returns (100, reporting) for
completed, (0, failed) for failed, (0, enriching) for pending, (10, planning)
for processing with no tasks, and otherwise
20 + int((c/t)·70) computed in IEEE binary64 arithmetic - not the exact floor
20 + ⌊(c/t)·70⌋, from which it deviates first at c = 47, t = 70 (see the
counterexample) - with c the number of APPROVED/REJECTED tasks and t the task
count, phase reporting with value 90 exactly when c = t > 0 and researching
otherwise, clamped to at most 99; progress_percent still lies in [0, 100], is
100 iff the job is completed, and is 0 iff the job is pending or failed. -/
theorem C6_progress_projector :
    (∀ ts, calculate_progress .completed ts = (100, "reporting")) ∧
    (∀ ts, calculate_progress .failed ts = (0, "failed")) ∧
    (∀ ts, calculate_progress .pending ts = (0, "enriching")) ∧
    calculate_progress .processing [] = (10, "planning") ∧
    (∀ ts, ts ≠ [] →
      calculate_progress .processing ts =
        if settledCount ts = ts.length then (90, "reporting")
        else (min (20 + float_task_progress (settledCount ts) ts.length) 99,
          "researching")) ∧
    (∀ s ts, (calculate_progress s ts).1 ≤ 100 ∧
      ((calculate_progress s ts).1 = 100 ↔ s = .completed) ∧
      ((calculate_progress s ts).1 = 0 ↔ s = .pending ∨ s = .failed)) := by
  refine ⟨fun ts => rfl, fun ts => rfl, fun ts => rfl, rfl, ?_, ?_⟩
  · intro ts hts
    exact calculate_progress_processing_branch _ ts (by decide) (by decide) (by decide) hts
  · intro s ts
    by_cases hc : s = .completed
    · subst hc
      exact ⟨by simp [calculate_progress], by simp [calculate_progress],
        by simp [calculate_progress]⟩
    · have h99 := calculate_progress_fst_le_99 s ts hc
      refine ⟨by omega, ⟨fun h => by omega, fun h => absurd h hc⟩, ?_, ?_⟩
      · intro h0
        by_contra hor
        push_neg at hor
        have := calculate_progress_fst_pos s ts hor.2 hor.1
        omega
      · rintro (h | h) <;> subst h <;> rfl

/-- Witness for C6 at a concrete processing job with one settled task out of
two. -/
theorem C6_progress_projector_witness :
    ([TaskStatus.APPROVED, TaskStatus.PENDING] ≠ ([] : List TaskStatus)) ∧
    calculate_progress .processing [.APPROVED, .PENDING] = (55, "researching") := by
  refine ⟨by decide, ?_⟩
  have h := C6_progress_projector.2.2.2.2.1 [.APPROVED, .PENDING] (by decide)
  rw [h]
  decide

lemma supervisorStep_idem (t : TaskRec) :
    supervisorStep (supervisorStep t).1 = ((supervisorStep t).1, none) := by
  cases h : t.status <;> simp [supervisorStep, h]

lemma supervisorStep_approved_iff (t : TaskRec) :
    (supervisorStep t).1.status = .APPROVED ↔ t.status = .APPROVED := by
  cases h : t.status <;> simp [supervisorStep, h]

lemma stepTasks_stepTasks (ts : List TaskRec) : stepTasks (stepTasks ts) = stepTasks ts := by
  unfold stepTasks
  induction ts with
  | nil => rfl
  | cons t ts ih =>
    simp only [List.map_cons, ih, List.cons.injEq, and_true]
    rw [supervisorStep_idem]

lemma stepEnqs_stepTasks (ts : List TaskRec) : stepEnqs (stepTasks ts) = [] := by
  unfold stepTasks stepEnqs
  induction ts with
  | nil => rfl
  | cons t ts ih =>
    simp only [List.map_cons, List.filterMap_cons, supervisorStep_idem]
    exact ih

lemma allApproved_stepTasks (ts : List TaskRec) : allApproved (stepTasks ts) = allApproved ts := by
  unfold stepTasks allApproved
  induction ts with
  | nil => rfl
  | cons t ts ih =>
    simp only [List.map_cons, List.all_cons, ih, supervisorStep_approved_iff]

lemma aggregate_not_mem_stepEnqs (ts : List TaskRec) :
    Enqueue.aggregate ∉ stepEnqs ts := by
  intro h
  rcases List.mem_filterMap.mp h with ⟨t, _, h2⟩
  cases hs : t.status <;> simp [supervisorStep, hs] at h2

lemma supervisor_loop_eq_pos (ts : List TaskRec) (js : JobStatus)
    (h1 : allApproved ts = true) (h2 : ts ≠ [])
    (h3 : js ≠ .completed) (h4 : js ≠ .generating) :
    supervisor_loop ts js = (stepTasks ts, .generating, stepEnqs ts ++ [.aggregate]) := by
  unfold supervisor_loop
  rw [if_pos ⟨h1, h2⟩, if_pos ⟨h3, h4⟩]

lemma supervisor_loop_eq_noCAS (ts : List TaskRec) (js : JobStatus)
    (h : ¬(allApproved ts = true ∧ ts ≠ [] ∧ js ≠ .completed ∧ js ≠ .generating)) :
    supervisor_loop ts js = (stepTasks ts, js, stepEnqs ts) := by
  unfold supervisor_loop
  split_ifs with h1 h2
  · exact absurd ⟨h1.1, h1.2, h2.1, h2.2⟩ h
  · rfl
  · rfl

lemma supervisor_loop_idem (ts : List TaskRec) (js : JobStatus) :
    supervisor_loop (supervisor_loop ts js).1 (supervisor_loop ts js).2.1
      = ((supervisor_loop ts js).1, (supervisor_loop ts js).2.1, []) := by
  by_cases hcas : allApproved ts = true ∧ ts ≠ [] ∧ js ≠ .completed ∧ js ≠ .generating
  · rw [supervisor_loop_eq_pos ts js hcas.1 hcas.2.1 hcas.2.2.1 hcas.2.2.2]
    show supervisor_loop (stepTasks ts) .generating = (stepTasks ts, .generating, [])
    rw [supervisor_loop_eq_noCAS _ _ (by simp)]
    rw [stepTasks_stepTasks, stepEnqs_stepTasks]
  · rw [supervisor_loop_eq_noCAS ts js hcas]
    show supervisor_loop (stepTasks ts) js = (stepTasks ts, js, [])
    rw [supervisor_loop_eq_noCAS _ _ ?h, stepTasks_stepTasks, stepEnqs_stepTasks]
    case h =>
      intro hc
      apply hcas
      refine ⟨?_, ?_, hc.2.2.1, hc.2.2.2⟩
      · rw [allApproved_stepTasks] at hc
        exact hc.1
      · intro hnil
        apply hc.2.1
        rw [hnil]
        rfl

/-- C2: a second supervisor run immediately after a first (no handler having
advanced any task between the two) enqueues nothing and changes nothing: every
task the first run dispatched now sits in a *_STARTED or RESEARCHING_RETRY
sentinel that the second run leaves untouched, and an `aggregate_report`
enqueue only ever happens out of a job status that is neither `generating` nor
`completed`, moving the job to `generating` - so it happens at most once. -/
theorem C2_supervisor_second_run_silent :
    ∀ (ts : List TaskRec) (js : JobStatus),
      (supervisor_loop (supervisor_loop ts js).1 (supervisor_loop ts js).2.1
          = ((supervisor_loop ts js).1, (supervisor_loop ts js).2.1, ([] : List Enqueue))) ∧
      (∀ t ∈ ts, ((supervisorStep t).2).isSome = true →
        (supervisorStep t).1.status ∈
            ([.HYPOTHESIZING_STARTED, .RESEARCHING_STARTED, .SCORING_STARTED,
              .CONTRADICTING_STARTED, .REVIEW_STARTED, .RESEARCHING_RETRY] : List TaskStatus) ∧
          supervisorStep (supervisorStep t).1 = ((supervisorStep t).1, none)) ∧
      (Enqueue.aggregate ∈ (supervisor_loop ts js).2.2 →
        js ≠ .generating ∧ js ≠ .completed ∧ (supervisor_loop ts js).2.1 = .generating) := by
  intro ts js
  refine ⟨supervisor_loop_idem ts js, ?_, ?_⟩
  · intro t _ hsome
    refine ⟨?_, supervisorStep_idem t⟩
    cases h : t.status <;> simp [supervisorStep, h] at hsome ⊢
  · intro hmem
    by_cases hcas : allApproved ts = true ∧ ts ≠ [] ∧ js ≠ .completed ∧ js ≠ .generating
    · refine ⟨hcas.2.2.2, hcas.2.2.1, ?_⟩
      rw [supervisor_loop_eq_pos ts js hcas.1 hcas.2.1 hcas.2.2.1 hcas.2.2.2]
    · rw [supervisor_loop_eq_noCAS ts js hcas] at hmem
      exact absurd hmem (aggregate_not_mem_stepEnqs ts)

/-- Witness for C2 on a single-task job in status `processing` with the task
PENDING. -/
theorem C2_supervisor_second_run_silent_witness :
    ((supervisorStep ⟨0, .PENDING⟩).2.isSome = true) ∧
    (supervisorStep (supervisorStep ⟨0, .PENDING⟩).1 = ((supervisorStep ⟨0, .PENDING⟩).1, none)) ∧
    supervisor_loop (supervisor_loop [⟨0, .PENDING⟩] .processing).1
        (supervisor_loop [⟨0, .PENDING⟩] .processing).2.1
      = ((supervisor_loop [⟨0, .PENDING⟩] .processing).1,
          (supervisor_loop [⟨0, .PENDING⟩] .processing).2.1, []) := by
  have h := C2_supervisor_second_run_silent [⟨0, .PENDING⟩] .processing
  exact ⟨by decide, (h.2.1 ⟨0, .PENDING⟩ (by decide) (by decide)).2, h.1⟩

/-- C1: the `research_reports` table has no `final_critique` column
(src/db/models.py), so the assignments at src/worker/tasks.py lines 322 and
339 are unmapped attributes the ORM drops at commit - no execution path ever
records a final critique on the job row.  What every path of
`final_critique_task` does persist is exactly `status := completed` and
`report := draft` (the fallback `except` branch included), and the
final-critique stage is still only reached after the supervisor saw every
task APPROVED. -/
theorem C1_no_final_critique_column :
    (∀ (ts : List TaskRec) (js : JobStatus),
      Enqueue.aggregate ∈ (supervisor_loop ts js).2.2 → ∀ t ∈ ts, t.status = .APPROVED) ∧
    (∀ (job : Job) (job_id : String) (draft : ReportData) (agent : AgentOutcome)
        (parse : PyStr → Option CritiqueVal) (embed : PyStr → Option (List ℚ)),
      (final_critique_task job job_id draft agent parse embed).1
        = { job with report := some draft, status := .completed }) := by
  constructor
  · intro ts js hmem t ht
    by_cases hcas : allApproved ts = true ∧ ts ≠ [] ∧ js ≠ .completed ∧ js ≠ .generating
    · have hall := hcas.1
      simp only [allApproved, List.all_eq_true] at hall
      simpa using hall t ht
    · rw [supervisor_loop_eq_noCAS ts js hcas] at hmem
      exact absurd hmem (aggregate_not_mem_stepEnqs ts)
  · intro job job_id draft agent parse embed
    cases agent with
    | raise => rfl
    | ok text =>
      simp only [final_critique_task]
      cases hp : parse text <;> simp only [hp] <;> split_ifs <;> rfl

/-- Witness for C1: a one-task all-APPROVED job triggers aggregation, and a
concrete failing run persists only the draft and the completed status. -/
theorem C1_no_final_critique_column_witness :
    ((⟨0, .APPROVED⟩ : TaskRec).status = .APPROVED) ∧
    (final_critique_task ⟨.generating, none, none⟩ "j" (.str "draft".toList)
        .raise (fun _ => none) (fun _ => none)).1
      = ⟨.completed, none, some (.str "draft".toList)⟩ := by
  refine ⟨?_, ?_⟩
  · exact C1_no_final_critique_column.1 [⟨0, .APPROVED⟩] .processing (by decide)
      ⟨0, .APPROVED⟩ (by decide)
  · exact C1_no_final_critique_column.2 ⟨.generating, none, none⟩ "j"
      (.str "draft".toList) .raise (fun _ => none) (fun _ => none)

/-- C10: when the enricher agent raises, `enrich_idea` returns the original
idea and writes nothing to the job (description and status untouched), the
chain therefore runs the plan handler on the raw idea; a pending job is
projected as (0, enriching) whatever its tasks look like, and a supervisor run
on a pending job either leaves the status pending or moves it straight to
`generating` while enqueueing aggregation. -/
theorem C10_enrich_failure_pending :
    ∀ (idea : PyStr) (job : Job),
      (enrich_idea idea job .raise = (job, idea)) ∧
      (job.status = .pending →
        ∀ ts, calculate_progress (enrich_idea idea job .raise).1.status ts
          = (0, "enriching")) ∧
      (∀ ts, (supervisor_loop ts .pending).2.1 = .pending ∨
        ((supervisor_loop ts .pending).2.1 = .generating ∧
          Enqueue.aggregate ∈ (supervisor_loop ts .pending).2.2)) := by
  intro idea job
  refine ⟨rfl, ?_, ?_⟩
  · intro hp ts
    show calculate_progress job.status ts = (0, "enriching")
    rw [hp]
    rfl
  · intro ts
    by_cases hcas : allApproved ts = true ∧ ts ≠ [] ∧
        (JobStatus.pending ≠ .completed ∧ JobStatus.pending ≠ .generating)
    · right
      rw [supervisor_loop_eq_pos ts .pending hcas.1 hcas.2.1 (by decide) (by decide)]
      exact ⟨rfl, by simp⟩
    · left
      rw [supervisor_loop_eq_noCAS ts .pending hcas]

/-- Witness for C10 at a concrete pending job with a raw idea and one
in-flight task. -/
theorem C10_enrich_failure_pending_witness :
    ((⟨.pending, none, none⟩ : Job).status = .pending) ∧
    calculate_progress
        (enrich_idea "idea".toList ⟨.pending, none, none⟩ .raise).1.status
        [.RESEARCHING_STARTED] = (0, "enriching") := by
  refine ⟨rfl, ?_⟩
  exact (C10_enrich_failure_pending "idea".toList ⟨.pending, none, none⟩).2.1 rfl
    [.RESEARCHING_STARTED]

lemma save_chunks_foldl (job_id : String) (embed : PyStr → Option (List ℚ))
    (raw : List PyStr) (acc : List ChunkRow) :
    raw.foldl (fun chunks chunk_text =>
        if chunk_text.length < 50 then chunks
        else
          match embed chunk_text with
          | some e => chunks ++ [⟨job_id, chunk_text, e⟩]
          | none => chunks) acc
      = acc ++ raw.filterMap (fun c =>
          if c.length < 50 then none
          else (embed c).map fun e => (⟨job_id, c, e⟩ : ChunkRow)) := by
  induction raw generalizing acc with
  | nil => simp
  | cons c raw ih =>
    simp only [List.foldl_cons, List.filterMap_cons]
    by_cases hlen : c.length < 50
    · rw [if_pos hlen, if_pos hlen]
      exact ih acc
    · rw [if_neg hlen, if_neg hlen]
      cases he : embed c with
      | none => simpa using ih acc
      | some e =>
        have h := ih (acc ++ [⟨job_id, c, e⟩])
        rw [List.append_assoc] at h
        simpa using h

/-- C7: `save_chunks` splits the flattened report on blank-line boundaries,
keeps exactly the stripped paragraphs of length at least 50 whose embedding
call succeeds (a per-paragraph embedding failure is skipped without aborting
the rest of the batch), and commits that batch; provided the embedding
provider returns 1024-dimensional vectors, every committed chunk has content
of length at least 50 and a 1024-dimensional embedding. -/
theorem C7_save_chunks :
    ∀ (job_id : String) (rd : ReportData) (embed : PyStr → Option (List ℚ)),
      (save_chunks job_id rd embed
        = (raw_chunks (flatten_report rd)).filterMap (fun c =>
            if c.length < 50 then none
            else (embed c).map fun e => (⟨job_id, c, e⟩ : ChunkRow))) ∧
      ((∀ s e, embed s = some e → e.length = 1024) →
        ∀ ch ∈ save_chunks job_id rd embed,
          50 ≤ ch.content.length ∧ ch.embedding.length = 1024 ∧
            embed ch.content = some ch.embedding) := by
  intro job_id rd embed
  have heq : save_chunks job_id rd embed
      = (raw_chunks (flatten_report rd)).filterMap (fun c =>
          if c.length < 50 then none
          else (embed c).map fun e => (⟨job_id, c, e⟩ : ChunkRow)) := by
    unfold save_chunks
    simpa using save_chunks_foldl job_id embed (raw_chunks (flatten_report rd)) []
  refine ⟨heq, ?_⟩
  intro h1024 ch hch
  rw [heq] at hch
  rcases List.mem_filterMap.mp hch with ⟨c, _, hc⟩
  by_cases hlen : c.length < 50
  · rw [if_pos hlen] at hc
    exact Option.noConfusion hc
  · rw [if_neg hlen] at hc
    cases he : embed c with
    | none =>
      rw [he] at hc
      exact Option.noConfusion hc
    | some e =>
      rw [he] at hc
      simp only [Option.map_some'] at hc
      cases hc
      exact ⟨Nat.not_lt.mp hlen, h1024 c e he, he⟩

set_option maxRecDepth 100000 in
/-- Witness for C7: a constant 1024-dimensional embedder over a one-paragraph
plain-text report of 55 characters. -/
theorem C7_save_chunks_witness :
    (∀ s e, (fun (_ : PyStr) => some (List.replicate 1024 (0 : ℚ))) s = some e →
        e.length = 1024) ∧
    (50 ≤ (ChunkRow.mk "j" "0123456789012345678901234567890123456789012345678901234".toList
        (List.replicate 1024 (0 : ℚ))).content.length ∧
      (ChunkRow.mk "j" "0123456789012345678901234567890123456789012345678901234".toList
        (List.replicate 1024 (0 : ℚ))).embedding.length = 1024 ∧
      (fun (_ : PyStr) => some (List.replicate 1024 (0 : ℚ)))
          (ChunkRow.mk "j" "0123456789012345678901234567890123456789012345678901234".toList
            (List.replicate 1024 (0 : ℚ))).content
        = some (ChunkRow.mk "j" "0123456789012345678901234567890123456789012345678901234".toList
            (List.replicate 1024 (0 : ℚ))).embedding) := by
  have hyp : ∀ s e, (fun (_ : PyStr) => some (List.replicate 1024 (0 : ℚ))) s = some e →
      e.length = 1024 := by
    intro s e h
    have h' : some (List.replicate 1024 (0 : ℚ)) = some e := h
    cases h'
    rw [List.length_replicate]
  refine ⟨hyp, ?_⟩
  exact (C7_save_chunks "j"
      (.str "0123456789012345678901234567890123456789012345678901234".toList)
      (fun _ => some (List.replicate 1024 (0 : ℚ)))).2 hyp
    ⟨"j", "0123456789012345678901234567890123456789012345678901234".toList,
      List.replicate 1024 (0 : ℚ)⟩ (by decide)

/-- C8: if the planner output parses as a JSON array of strings the plan
handler creates one PENDING task per string; if JSON parsing fails it creates
exactly one PENDING task titled with the full enriched description; in both
cases it enqueues the supervisor. -/
theorem C8_plan_parse_and_fallback :
    ∀ (description text : PyStr) (parse : PyStr → Option PlanJson),
      (∀ ts, parse (clean_json_string text) = some (.arr ts) →
        plan_research description (.ok text) parse
          = (ts.map fun t => ⟨t, .PENDING⟩, true)) ∧
      (parse (clean_json_string text) = none →
        plan_research description (.ok text) parse
          = ([⟨description, .PENDING⟩], true)) ∧
      ((plan_research description (.ok text) parse).2 = true) := by
  intro d text parse
  refine ⟨?_, ?_, ?_⟩
  · intro ts h
    simp [plan_research, h]
  · intro h
    simp [plan_research, h]
  · simp only [plan_research]
    rcases parse (clean_json_string text) with _ | pj
    · rfl
    · cases pj <;> rfl

/-- Witness for C8: a parser returning a two-element array, and one returning
a parse failure. -/
theorem C8_plan_parse_and_fallback_witness :
    ((fun (_ : PyStr) => some (PlanJson.arr ["t1".toList, "t2".toList]))
        (clean_json_string "x".toList) = some (.arr ["t1".toList, "t2".toList])) ∧
    plan_research "desc".toList (.ok "x".toList)
        (fun _ => some (.arr ["t1".toList, "t2".toList]))
      = ([⟨"t1".toList, .PENDING⟩, ⟨"t2".toList, .PENDING⟩], true) ∧
    ((fun (_ : PyStr) => (none : Option PlanJson)) (clean_json_string "x".toList) = none) ∧
    plan_research "desc".toList (.ok "x".toList) (fun _ => none)
      = ([⟨"desc".toList, .PENDING⟩], true) := by
  refine ⟨rfl, ?_, rfl, ?_⟩
  · have h := (C8_plan_parse_and_fallback "desc".toList "x".toList
        (fun _ => some (.arr ["t1".toList, "t2".toList]))).1
      ["t1".toList, "t2".toList] rfl
    simpa using h
  · exact (C8_plan_parse_and_fallback "desc".toList "x".toList (fun _ => none)).2.1 rfl

lemma dedupe_by_url_foldl_nodup (rs : List RawResult) (acc : List RawResult × List String)
    (hnd : (acc.1.map RawResult.url).Nodup)
    (hsub : ∀ u ∈ acc.1.map RawResult.url, u ∈ acc.2) :
    ((rs.foldl (fun acc r =>
        if r.url ∈ acc.2 then acc else (acc.1 ++ [r], acc.2 ++ [r.url])) acc).1.map
      RawResult.url).Nodup := by
  induction rs generalizing acc with
  | nil => exact hnd
  | cons r rs ih =>
    simp only [List.foldl_cons]
    by_cases hmem : r.url ∈ acc.2
    · rw [if_pos hmem]
      exact ih acc hnd hsub
    · rw [if_neg hmem]
      have hnotin : r.url ∉ acc.1.map RawResult.url := fun hin => hmem (hsub _ hin)
      refine ih _ ?_ ?_
      · simp only [List.map_append, List.nodup_append]
        refine ⟨hnd, by simp, ?_⟩
        intro u hu hu2
        simp only [List.map_cons, List.map_nil, List.mem_singleton] at hu2
        subst hu2
        exact hnotin hu
      · intro u hu
        simp only [List.map_append, List.mem_append] at hu
        rcases hu with hu | hu
        · exact List.mem_append_left _ (hsub _ hu)
        · exact List.mem_append_right _ (by simpa using hu)

lemma dedupe_by_url_nodup (rs : List RawResult) :
    ((dedupe_by_url rs).map RawResult.url).Nodup := by
  unfold dedupe_by_url
  exact dedupe_by_url_foldl_nodup rs ([], []) (by simp) (by simp)

lemma run_deep_search_results (query : PyStr) (mr : Nat) (llm : Option PyStr)
    (searchFn : PyStr → Option SearchResponse) :
    ∃ gathered answer,
      (run_deep_search query mr llm searchFn).1
        = format_output answer ((dedupe_by_url gathered).take (mr * 2)) :=
  ⟨_, _, rfl⟩

/-- C9: formatted web-search content is truncated exactly when it exceeds
5000 characters, to its first 5000 characters followed by the literal
"...(truncated)"; deep search falls back to the single original query when
sub-query generation fails, executes at most 4 queries, deduplicates merged
results by URL, and returns at most 2 × max_results results. -/
theorem C9_truncation_and_deep_search :
    (∀ (a : String) (rs : List RawResult) (o : FormattedResult),
      o ∈ (format_output a rs).results →
      ∃ r ∈ rs, o.content = truncate_content (effective_content r)) ∧
    (∀ s : PyStr,
      (5000 < s.length →
        truncate_content (some s) = some (s.take 5000 ++ "...(truncated)".toList)) ∧
      (¬ 5000 < s.length → truncate_content (some s) = some s)) ∧
    (∀ (query : PyStr) (mr : Nat) (searchFn : PyStr → Option SearchResponse),
      (run_deep_search query mr none searchFn).2 = [query]) ∧
    (∀ (query : PyStr) (mr : Nat) (llm : Option PyStr)
        (searchFn : PyStr → Option SearchResponse),
      (run_deep_search query mr llm searchFn).2.length ≤ 4 ∧
      ((run_deep_search query mr llm searchFn).1.results.map (fun o : FormattedResult => o.url)).Nodup ∧
      (run_deep_search query mr llm searchFn).1.results.length ≤ 2 * mr) := by
  refine ⟨?_, ?_, ?_, ?_⟩
  · intro a rs o ho
    simp only [format_output, List.mem_map] at ho
    rcases ho with ⟨r, hr, rfl⟩
    exact ⟨r, hr, rfl⟩
  · intro s
    constructor
    · intro h
      simp [truncate_content, h]
    · intro h
      simp [truncate_content, h]
  · intro query mr searchFn
    simp [run_deep_search, deep_queries]
  · intro query mr llm searchFn
    refine ⟨?_, ?_, ?_⟩
    · show ((deep_queries query llm).take 4).length ≤ 4
      exact List.length_take_le _ _
    · rcases run_deep_search_results query mr llm searchFn with ⟨g, ans, heq⟩
      rw [heq]
      show ((((dedupe_by_url g).take (mr * 2)).map _).map (fun o : FormattedResult => o.url)).Nodup
      rw [List.map_map]
      exact List.Nodup.sublist
        (List.Sublist.map RawResult.url (List.take_sublist _ _))
        (dedupe_by_url_nodup g)
    · rcases run_deep_search_results query mr llm searchFn with ⟨g, ans, heq⟩
      rw [heq]
      have hle := List.length_take_le (mr * 2) (dedupe_by_url g)
      simp only [format_output, List.length_map]
      omega

/-- Witness for C9: a short content is not truncated, a failing LLM call falls
back to the original query, and a concrete formatted output matches its input
result. -/
theorem C9_truncation_and_deep_search_witness :
    (¬ 5000 < ("ab".toList : PyStr).length) ∧
    truncate_content (some "ab".toList) = some "ab".toList ∧
    (run_deep_search "q".toList 3 none (fun _ => none)).2 = ["q".toList] ∧
    ((⟨none, "u", some "c".toList, none⟩ : FormattedResult)
        ∈ (format_output "a" [⟨none, "u", some "c".toList, none, none⟩]).results) ∧
    ∃ r ∈ ([⟨none, "u", some "c".toList, none, none⟩] : List RawResult),
      (⟨none, "u", some "c".toList, none⟩ : FormattedResult).content
        = truncate_content (effective_content r) := by
  refine ⟨by decide, ?_, ?_, by decide, ?_⟩
  · exact (C9_truncation_and_deep_search.2.1 "ab".toList).2 (by decide)
  · exact C9_truncation_and_deep_search.2.2.1 "q".toList 3 (fun _ => none)
  · exact C9_truncation_and_deep_search.1 "a" [⟨none, "u", some "c".toList, none, none⟩]
      ⟨none, "u", some "c".toList, none⟩ (by decide)

/-- C3 counterexample: with the cache store down, `redis_client.get`
raises out of `create_research` (no try/except in src/api/main.py lines
121-126), the request fails and no job is created - refuting the claim that a
cache failure is treated as a miss and the job is still created. -/
theorem C3_counterexample :
    (create_research ⟨[], [], ⟨[], true, false⟩, []⟩ 0 "J" "some idea" (some "k")).1
        = .error ∧
    ((create_research ⟨[], [], ⟨[], true, false⟩, []⟩ 0 "J" "some idea" (some "k")).2).jobs
        = [] := by
  constructor <;> rfl

/-- C3 (amended): a failure of the idempotency cache store fails the POST
/research request instead of degrading to a cache miss: a lookup error aborts
before any job is created, and a store error aborts after the job row was
committed, so the job exists but the worker chain is never enqueued and the
client receives an error. -/
theorem C3_cache_failure_fails_request :
    ∀ (st : ApiState) (now : ℤ) (new_id idea k : String),
      (st.cache.failing_get = true →
        create_research st now new_id idea (some k) = (.error, st)) ∧
      (st.cache.failing_set = true →
        cacheGet st.cache now ("idempotency:" ++ k) = .ok none →
        create_research st now new_id idea (some k)
          = (.error, { st with jobs := st.jobs ++ [⟨new_id, idea, .pending⟩] })) := by
  intro st now new_id idea k
  constructor
  · intro hg
    simp [create_research, cacheGet, hg]
  · intro hs hget
    simp only [create_research, hget]
    simp [create_research_new, cacheSetex, hs]

/-- Witness for C3 (amended): concrete empty states whose cache fails on
lookup and on store respectively. -/
theorem C3_cache_failure_fails_request_witness :
    ((⟨[], [], ⟨[], true, false⟩, []⟩ : ApiState).cache.failing_get = true) ∧
    create_research ⟨[], [], ⟨[], true, false⟩, []⟩ 0 "J" "i" (some "k")
      = (.error, ⟨[], [], ⟨[], true, false⟩, []⟩) ∧
    ((⟨[], [], ⟨[], false, true⟩, []⟩ : ApiState).cache.failing_set = true) ∧
    (cacheGet (⟨[], false, true⟩ : CacheState) 0 ("idempotency:" ++ "k") = .ok none) ∧
    create_research ⟨[], [], ⟨[], false, true⟩, []⟩ 0 "J" "i" (some "k")
      = (.error, ⟨[⟨"J", "i", .pending⟩], [], ⟨[], false, true⟩, []⟩) := by
  refine ⟨rfl, ?_, rfl, rfl, ?_⟩
  · exact (C3_cache_failure_fails_request ⟨[], [], ⟨[], true, false⟩, []⟩ 0 "J" "i" "k").1 rfl
  · exact (C3_cache_failure_fails_request ⟨[], [], ⟨[], false, true⟩, []⟩ 0 "J" "i" "k").2 rfl rfl

/-- C4: two POST /research requests with the same Idempotency-Key within 24
hours return the same job_id: the first creates the pending job, stores
key → job_id with a 24 h (86400 s) TTL and answers with that id; the second
hits the cache, returns the current JobStatus of the stored job and leaves
the state untouched (no new job row, no new chain enqueue). -/
theorem C4_idempotency_same_job :
    ∀ (st : ApiState) (now₁ now₂ : ℤ) (new_id idea k new_id₂ idea₂ : String),
      st.cache.failing_get = false →
      st.cache.failing_set = false →
      cacheGet st.cache now₁ ("idempotency:" ++ k) = .ok none →
      (st.jobs.find? fun j => j.id = new_id) = none →
      now₂ < now₁ + 86400 →
      ∃ st₁ resp₁ resp₂,
        create_research st now₁ new_id idea (some k) = (.ok resp₁, st₁) ∧
        resp₁.job_id = new_id ∧
        create_research st₁ now₂ new_id₂ idea₂ (some k) = (.ok resp₂, st₁) ∧
        resp₂.job_id = new_id ∧
        get_research_status_logic st₁ new_id = some resp₂ ∧
        st₁.jobs = st.jobs ++ [⟨new_id, idea, .pending⟩] := by
  intro st now₁ now₂ new_id idea k new_id₂ idea₂ hg hs hget hfresh hlt
  refine ⟨⟨st.jobs ++ [⟨new_id, idea, .pending⟩], st.tasks,
      ⟨⟨"idempotency:" ++ k, new_id, now₁ + 86400⟩ :: st.cache.entries,
        st.cache.failing_get, st.cache.failing_set⟩,
      st.chainQueue ++ [(idea, new_id)]⟩,
    ⟨new_id, .pending, 0, "queued"⟩, ⟨new_id, .pending, 0, "enriching"⟩,
    ?_, rfl, ?_, rfl, ?_, rfl⟩
  · simp only [create_research, hget, create_research_new, cacheSetex]
    simp [hs]
  · have hget2 : cacheGet
        (⟨⟨"idempotency:" ++ k, new_id, now₁ + 86400⟩ :: st.cache.entries,
          st.cache.failing_get, st.cache.failing_set⟩ : CacheState)
        now₂ ("idempotency:" ++ k) = .ok (some new_id) := by
      simp only [cacheGet]
      rw [if_neg (by simp [hg])]
      rw [List.find?_cons_of_pos _ (by simp [hlt])]
      rfl
    have hstatus : get_research_status_logic
        (⟨st.jobs ++ [⟨new_id, idea, .pending⟩], st.tasks,
          ⟨⟨"idempotency:" ++ k, new_id, now₁ + 86400⟩ :: st.cache.entries,
            st.cache.failing_get, st.cache.failing_set⟩,
          st.chainQueue ++ [(idea, new_id)]⟩ : ApiState) new_id
        = some ⟨new_id, .pending, 0, "enriching"⟩ := by
      simp only [get_research_status_logic, List.find?_append, hfresh]
      rw [List.find?_cons_of_pos _ (by simp)]
      rfl
    simp only [create_research, hget2, hstatus]
  · simp only [get_research_status_logic, List.find?_append, hfresh]
    rw [List.find?_cons_of_pos _ (by simp)]
    rfl

/-- Witness for C4: an empty state, key "k", first request at t=0 minting job
id J1, second request at t=100 minting (unused) J2. -/
theorem C4_idempotency_same_job_witness :
    ((⟨[], [], ⟨[], false, false⟩, []⟩ : ApiState).cache.failing_get = false) ∧
    ((⟨[], [], ⟨[], false, false⟩, []⟩ : ApiState).cache.failing_set = false) ∧
    (cacheGet (⟨[], false, false⟩ : CacheState) 0 ("idempotency:" ++ "k") = .ok none) ∧
    (((⟨[], [], ⟨[], false, false⟩, []⟩ : ApiState).jobs.find? fun j => j.id = "J1") = none) ∧
    ((100 : ℤ) < 0 + 86400) ∧
    ∃ st₁ resp₁ resp₂,
      create_research ⟨[], [], ⟨[], false, false⟩, []⟩ 0 "J1" "i" (some "k")
        = (.ok resp₁, st₁) ∧
      resp₁.job_id = "J1" ∧
      create_research st₁ 100 "J2" "i" (some "k") = (.ok resp₂, st₁) ∧
      resp₂.job_id = "J1" ∧
      get_research_status_logic st₁ "J1" = some resp₂ ∧
      st₁.jobs = [] ++ [⟨"J1", "i", .pending⟩] := by
  refine ⟨rfl, rfl, rfl, rfl, by decide, ?_⟩
  exact C4_idempotency_same_job ⟨[], [], ⟨[], false, false⟩, []⟩ 0 100 "J1" "i" "k" "J2" "i"
    rfl rfl rfl rfl (by decide)

lemma dotList_self_nonneg (v : List ℚ) : 0 ≤ dotList v v := by
  induction v with
  | nil => simp [dotList]
  | cons x v ih =>
    simp only [dotList, List.zipWith_cons_cons, List.sum_cons]
    exact add_nonneg (mul_self_nonneg x) ih

lemma quotientLe_iff_sign (X Y A B : ℝ) (hA : 0 < A) (hB : 0 < B) :
    (Y / B ≤ X / A) ↔
      (if 0 ≤ X then (Y < 0 ∨ Y * Y * (A * A) ≤ X * X * (B * B))
        else (¬ 0 ≤ Y ∧ X * X * (B * B) ≤ Y * Y * (A * A))) := by
  rw [div_le_div_iff₀ hB hA]
  split_ifs with hx
  · constructor
    · intro h
      by_cases hy : Y < 0
      · exact Or.inl hy
      · push_neg at hy
        right
        nlinarith [mul_le_mul h h (mul_nonneg hy hA.le) (mul_nonneg hx hB.le)]
    · rintro (hy | h)
      · nlinarith [mul_neg_of_neg_of_pos hy hA, mul_nonneg hx hB.le]
      · nlinarith [mul_nonneg hx hB.le, sq_nonneg (X * B - Y * A), sq_nonneg (X * B + Y * A)]
  · push_neg at hx
    have hxb : X * B < 0 := mul_neg_of_neg_of_pos hx hB
    constructor
    · intro h
      have hya : Y * A < 0 := lt_of_le_of_lt h hxb
      have hy : Y < 0 := by
        by_contra hy
        push_neg at hy
        nlinarith [mul_nonneg hy hA.le]
      refine ⟨by linarith, ?_⟩
      have h1 : -(X * B) ≤ -(Y * A) := neg_le_neg h
      nlinarith [mul_le_mul h1 h1 (by linarith) (by linarith)]
    · rintro ⟨hy, h⟩
      push_neg at hy
      have hya : Y * A < 0 := mul_neg_of_neg_of_pos hy hA
      nlinarith [sq_nonneg (Y * A - X * B), sq_nonneg (Y * A + X * B)]

lemma dist_le_iff_quotientLe (X Y Qs A B : ℝ) (hQ : 0 < Qs) (hA : 0 < A) (hB : 0 < B) :
    (1 - X / (Qs * A) ≤ 1 - Y / (Qs * B)) ↔ (Y / B ≤ X / A) := by
  rw [sub_le_sub_iff_left]
  rw [div_le_div_iff₀ (mul_pos hQ hB) (mul_pos hQ hA), div_le_div_iff₀ hB hA]
  constructor
  · intro h
    have h2 : Qs * (Y * A) ≤ Qs * (X * B) := by nlinarith
    exact le_of_mul_le_mul_left h2 hQ
  · intro h
    nlinarith [mul_le_mul_of_nonneg_left h hQ.le]

lemma cosLe_iff_quotientLe (q a b : List ℚ)
    (ha : 0 < dotList a a) (hb : 0 < dotList b b) :
    cosLe q a b = true ↔
      ((dotList q b : ℚ) : ℝ) / Real.sqrt ((dotList b b : ℚ) : ℝ)
        ≤ ((dotList q a : ℚ) : ℝ) / Real.sqrt ((dotList a a : ℚ) : ℝ) := by
  have haR : (0:ℝ) < ((dotList a a : ℚ) : ℝ) := by exact_mod_cast ha
  have hbR : (0:ℝ) < ((dotList b b : ℚ) : ℝ) := by exact_mod_cast hb
  have hA : (0:ℝ) < Real.sqrt ((dotList a a : ℚ) : ℝ) := Real.sqrt_pos.mpr haR
  have hB : (0:ℝ) < Real.sqrt ((dotList b b : ℚ) : ℝ) := Real.sqrt_pos.mpr hbR
  have hAA : Real.sqrt ((dotList a a : ℚ) : ℝ) * Real.sqrt ((dotList a a : ℚ) : ℝ)
      = ((dotList a a : ℚ) : ℝ) := Real.mul_self_sqrt haR.le
  have hBB : Real.sqrt ((dotList b b : ℚ) : ℝ) * Real.sqrt ((dotList b b : ℚ) : ℝ)
      = ((dotList b b : ℚ) : ℝ) := Real.mul_self_sqrt hbR.le
  rw [quotientLe_iff_sign _ _ _ _ hA hB]
  rw [hAA, hBB]
  simp only [cosLe]
  rw [if_neg ha.ne', if_neg hb.ne']
  by_cases hx : (0:ℚ) ≤ dotList q a
  · rw [if_pos hx, if_pos (by exact_mod_cast hx : (0:ℝ) ≤ ((dotList q a : ℚ) : ℝ))]
    by_cases hy : dotList q b < 0
    · rw [if_pos hy]
      constructor
      · intro _
        exact Or.inl (by exact_mod_cast hy)
      · intro _
        rfl
    · rw [if_neg hy]
      constructor
      · intro h
        right
        exact_mod_cast of_decide_eq_true h
      · rintro (hy' | h)
        · exact absurd (by exact_mod_cast hy' : dotList q b < 0) hy
        · exact decide_eq_true (by exact_mod_cast h)
  · rw [if_neg hx,
      if_neg (show ¬ (0:ℝ) ≤ ((dotList q a : ℚ) : ℝ) from
        fun hcon => hx (by exact_mod_cast hcon))]
    by_cases hy : (0:ℚ) ≤ dotList q b
    · rw [if_pos hy]
      constructor
      · intro h
        exact absurd h (by simp)
      · rintro ⟨hy', _⟩
        exact absurd (by exact_mod_cast hy : (0:ℝ) ≤ ((dotList q b : ℚ) : ℝ)) hy'
    · rw [if_neg hy]
      constructor
      · intro h
        refine ⟨?_, by exact_mod_cast of_decide_eq_true h⟩
        intro hcon
        exact hy (by exact_mod_cast hcon)
      · rintro ⟨_, h⟩
        exact decide_eq_true (by exact_mod_cast h)

lemma cosLe_iff_dist (q a b : List ℚ) (hq : 0 < dotList q q)
    (ha : 0 < dotList a a) (hb : 0 < dotList b b) :
    cosLe q a b = true ↔ cosineDistance q a ≤ cosineDistance q b := by
  have haR : (0:ℝ) < ((dotList a a : ℚ) : ℝ) := by exact_mod_cast ha
  have hbR : (0:ℝ) < ((dotList b b : ℚ) : ℝ) := by exact_mod_cast hb
  have hqR : (0:ℝ) < ((dotList q q : ℚ) : ℝ) := by exact_mod_cast hq
  have hA : (0:ℝ) < Real.sqrt ((dotList a a : ℚ) : ℝ) := Real.sqrt_pos.mpr haR
  have hB : (0:ℝ) < Real.sqrt ((dotList b b : ℚ) : ℝ) := Real.sqrt_pos.mpr hbR
  have hQ : (0:ℝ) < Real.sqrt ((dotList q q : ℚ) : ℝ) := Real.sqrt_pos.mpr hqR
  rw [cosLe_iff_quotientLe q a b ha hb]
  unfold cosineDistance
  exact (dist_le_iff_quotientLe _ _ _ _ _ hQ hA hB).symm

lemma cosLe_total (q a b : List ℚ) : (cosLe q a b || cosLe q b a) = true := by
  rcases eq_or_lt_of_le (dotList_self_nonneg a) with hsa | hsa
  · have h : cosLe q a b = true := by simp [cosLe, ← hsa]
    simp [h]
  · rcases eq_or_lt_of_le (dotList_self_nonneg b) with hsb | hsb
    · have h : cosLe q b a = true := by simp [cosLe, ← hsb]
      simp [h]
    · rcases le_total (((dotList q b : ℚ) : ℝ) / Real.sqrt ((dotList b b : ℚ) : ℝ))
        (((dotList q a : ℚ) : ℝ) / Real.sqrt ((dotList a a : ℚ) : ℝ)) with h | h
      · simp [(cosLe_iff_quotientLe q a b hsa hsb).mpr h]
      · simp [(cosLe_iff_quotientLe q b a hsb hsa).mpr h]

lemma cosLe_trans (q a b c : List ℚ) (hab : cosLe q a b = true)
    (hbc : cosLe q b c = true) : cosLe q a c = true := by
  rcases eq_or_lt_of_le (dotList_self_nonneg a) with hsa | hsa
  · simp [cosLe, ← hsa]
  · rcases eq_or_lt_of_le (dotList_self_nonneg b) with hsb | hsb
    · simp [cosLe, hsa.ne', ← hsb] at hab
    · rcases eq_or_lt_of_le (dotList_self_nonneg c) with hsc | hsc
      · simp [cosLe, hsb.ne', ← hsc] at hbc
      · have h1 := (cosLe_iff_quotientLe q a b hsa hsb).mp hab
        have h2 := (cosLe_iff_quotientLe q b c hsb hsc).mp hbc
        exact (cosLe_iff_quotientLe q a c hsa hsc).mpr (le_trans h2 h1)

/-- C5: for an age-filtered chunk search with vectors of positive norm, a
chunk created exactly at `now − max_age_days` passes the age filter and (when
the limit does not cut) is returned, every returned chunk satisfies
`created_at ≥ now − max_age_days`, any strictly older chunk is excluded, at
most `limit` chunks are returned, and the returned list is ordered by cosine
distance to the query embedding, ascending. -/
theorem C5_age_filtered_search :
    ∀ (chunks : List Chunk) (q : List ℚ) (lim : Nat) (d now : ℚ),
      0 < dotList q q →
      (∀ c ∈ chunks, 0 < dotList c.embedding c.embedding) →
      ((∀ c ∈ chunks, c.created_at = now - d → chunks.length ≤ lim →
          c ∈ search_similar_chunks chunks q lim (some d) now) ∧
        (∀ c ∈ search_similar_chunks chunks q lim (some d) now,
          now - d ≤ c.created_at) ∧
        (∀ c : Chunk, c.created_at < now - d →
          c ∉ search_similar_chunks chunks q lim (some d) now) ∧
        (search_similar_chunks chunks q lim (some d) now).length ≤ lim ∧
        List.Pairwise
          (fun a b => cosineDistance q a.embedding ≤ cosineDistance q b.embedding)
          (search_similar_chunks chunks q lim (some d) now)) := by
  intro chunks q lim d now hq hall
  have hsearch : search_similar_chunks chunks q lim (some d) now
      = ((chunks.filter fun (c : Chunk) => now - d ≤ c.created_at).mergeSort
          fun a b => cosLe q a.embedding b.embedding).take lim := rfl
  set F := chunks.filter fun (c : Chunk) => now - d ≤ c.created_at with hF
  set S := F.mergeSort fun a b => cosLe q a.embedding b.embedding with hS
  have hperm : S.Perm F := List.mergeSort_perm F _
  have hage : ∀ c ∈ search_similar_chunks chunks q lim (some d) now,
      now - d ≤ c.created_at := by
    intro c hc
    rw [hsearch] at hc
    have hcF : c ∈ F := hperm.mem_iff.mp (List.mem_of_mem_take hc)
    simpa using (List.mem_filter.mp hcF).2
  refine ⟨?_, hage, ?_, ?_, ?_⟩
  · intro c hc hcreated hlen
    rw [hsearch]
    have hcF : c ∈ F := List.mem_filter.mpr ⟨hc, by simp [hcreated]⟩
    have hlenS : S.length ≤ lim := by
      have h1 : S.length = F.length := hperm.length_eq
      have h2 : F.length ≤ chunks.length := List.length_filter_le _ _
      omega
    rw [List.take_of_length_le hlenS]
    exact hperm.mem_iff.mpr hcF
  · intro c hold hc
    exact absurd (hage c hc) (not_le.mpr hold)
  · rw [hsearch]
    exact List.length_take_le _ _
  · rw [hsearch]
    have hsorted : List.Pairwise
        (fun a b => cosLe q a.embedding b.embedding = true) S :=
      @List.sorted_mergeSort Chunk (fun a b => cosLe q a.embedding b.embedding)
        (fun a b c hab hbc => cosLe_trans q _ _ _ hab hbc)
        (fun a b => cosLe_total q _ _) F
    have htake : List.Pairwise
        (fun a b => cosLe q a.embedding b.embedding = true) (S.take lim) :=
      List.Pairwise.sublist (List.take_sublist lim S) hsorted
    refine List.Pairwise.imp_of_mem ?_ htake
    intro x y hx hy hxy
    have hxC : x ∈ chunks :=
      List.mem_of_mem_filter (hperm.mem_iff.mp (List.mem_of_mem_take hx))
    have hyC : y ∈ chunks :=
      List.mem_of_mem_filter (hperm.mem_iff.mp (List.mem_of_mem_take hy))
    exact (cosLe_iff_dist q x.embedding y.embedding hq (hall x hxC) (hall y hyC)).mp hxy

/-- Witness for C5: query [1] over two one-dimensional chunks, one created
exactly at the cutoff 12 − 7 = 5 and one older. -/
theorem C5_age_filtered_search_witness :
    (0 < dotList [1] [1]) ∧
    (∀ c ∈ [Chunk.mk "c1".toList [1] 5, Chunk.mk "c2".toList [2] 3],
        0 < dotList c.embedding c.embedding) ∧
    ((Chunk.mk "c1".toList [1] 5).created_at = 12 - 7) ∧
    ([Chunk.mk "c1".toList [1] 5, Chunk.mk "c2".toList [2] 3].length ≤ 5) ∧
    Chunk.mk "c1".toList [1] 5 ∈
      search_similar_chunks [Chunk.mk "c1".toList [1] 5, Chunk.mk "c2".toList [2] 3]
        [1] 5 (some 7) 12 := by
  refine ⟨by norm_num [dotList], ?_, by norm_num, by norm_num, ?_⟩
  · intro c hc
    rcases List.mem_cons.mp hc with h | h
    · subst h
      norm_num [dotList]
    · simp only [List.mem_singleton] at h
      subst h
      norm_num [dotList]
  · exact (C5_age_filtered_search
        [Chunk.mk "c1".toList [1] 5, Chunk.mk "c2".toList [2] 3] [1] 5 7 12
        (by norm_num [dotList])
        (by
          intro c hc
          rcases List.mem_cons.mp hc with h | h
          · subst h
            norm_num [dotList]
          · simp only [List.mem_singleton] at h
            subst h
            norm_num [dotList])).1
      (Chunk.mk "c1".toList [1] 5) (by simp) (by norm_num) (by norm_num)
